import Mathlib

/-!
Verification of the record-interchange bridge of the sling Python package
(file sling/__init__.py): encoders, decoders, schema inference and the
process-orchestration checks, shallowly embedded as pure Lean functions.

Python scalar values are modelled by an inductive type.  A record is an
association list from field name to value, mirroring an insertion-ordered
Python dict.  Floating point, date and datetime payloads are carried as
their Python string representation, since no claim inspects their numeric
content; type membership (isinstance) is what the bridge code branches on.
-/

namespace Sling

/-- A Python scalar value as handled by the bridge.  A `datetimev` is also a
date in Python (datetime.datetime subclasses datetime.date), which the
isinstance predicates below reflect. -/
inductive PyValue where
  | nullv
  | boolv (b : Bool)
  | intv (n : Int)
  | floatv (r : String)
  | strv (s : String)
  | datev (iso : String)
  | datetimev (iso : String)
deriving DecidableEq, Repr

/-- Python str() of a scalar value.  str(None) is the 4-char string None;
str(True)/str(False) are capitalized; float/date/datetime payloads already
carry their Python string form. -/
def pyStr : PyValue → String
  | .nullv => "None"
  | .boolv true => "True"
  | .boolv false => "False"
  | .intv n => toString n
  | .floatv r => r
  | .strv s => s
  | .datev iso => iso
  | .datetimev iso => iso

/-- isinstance(v, bool) -/
def isBoolInst : PyValue → Bool
  | .boolv _ => true
  | _ => false

/-- isinstance(v, int): in Python a bool is an int. -/
def isIntInst : PyValue → Bool
  | .intv _ => true
  | .boolv _ => true
  | _ => false

/-- isinstance(v, float) -/
def isFloatInst : PyValue → Bool
  | .floatv _ => true
  | _ => false

/-- isinstance(v, datetime.datetime) -/
def isDatetimeInst : PyValue → Bool
  | .datetimev _ => true
  | _ => false

/-- isinstance(v, datetime.date): a datetime is also a date in Python. -/
def isDateInst : PyValue → Bool
  | .datev _ => true
  | .datetimev _ => true
  | _ => false

/-- A record: insertion-ordered mapping from field name to scalar value. -/
abbrev Record := List (String × PyValue)

/-- The keys of a record, in insertion order. -/
def recordKeys (r : Record) : List String := r.map Prod.fst

/-- The Arrow data types the bridge infers (pa.bool_, pa.int64, pa.float64,
pa.timestamp with us precision, pa.date32, pa.string). -/
inductive ArrowType where
  | bool
  | int64
  | float64
  | timestampUs
  | date32
  | string
deriving DecidableEq, Repr

/-- One entry of an Arrow schema: pa.field(name, type, nullable). -/
structure ArrowField where
  name : String
  type : ArrowType
  nullable : Bool
deriving DecidableEq, Repr

/-- An Arrow schema: ordered field list. -/
abbrev ArrowSchema := List ArrowField

/-! ### Lexicographic string ordering (Python sorted on str) -/

/-- Lexicographic less-or-equal on char lists by code point, as Python
compares strings. -/
def lexLe : List Char → List Char → Bool
  | [], _ => true
  | _ :: _, [] => false
  | a :: as, b :: bs =>
    if a.toNat < b.toNat then true
    else if b.toNat < a.toNat then false
    else lexLe as bs

/-- Lexicographic less-or-equal on strings by code point. -/
def strLe (a b : String) : Bool := lexLe a.data b.data

/-- Insert a string into a sorted list (insertion sort step). -/
def insertStr (x : String) : List String → List String
  | [] => [x]
  | y :: ys => if strLe x y then x :: y :: ys else y :: insertStr x ys

/-- Sort a list of strings lexicographically (Python sorted). -/
def sortStrings (l : List String) : List String := l.foldr insertStr []

/-! ### Schema inference (_infer_arrow_schema / _infer_arrow_type) -/

/-- Embeds _infer_arrow_type: infer an Arrow type from the non-null sample
values of one field, by the ordered isinstance checks of the source. -/
def inferArrowType (sampleValues : List PyValue) : ArrowType :=
  if sampleValues.isEmpty then .string
  else if sampleValues.all (fun v => isBoolInst v) then .bool
  else if sampleValues.all (fun v => isIntInst v && !isBoolInst v) then .int64
  else if sampleValues.all (fun v => (isIntInst v || isFloatInst v) && !isBoolInst v) then .float64
  else if sampleValues.all (fun v => isDatetimeInst v) then .timestampUs
  else if sampleValues.all (fun v => isDateInst v) then .date32
  else .string

/-- The union of the field names of the first 100 records, deduplicated and
sorted, as _infer_arrow_schema collects them via a set and sorted(). -/
def sampleFieldNames (records : List Record) : List String :=
  sortStrings (((records.take 100).flatMap recordKeys).dedup)

/-- The non-null sample values of one field across the first 100 records
(record has the key and the value is not None). -/
def nonNullSamples (fieldName : String) (records : List Record) : List PyValue :=
  (records.take 100).filterMap (fun r =>
    match r.lookup fieldName with
    | some v => if v = .nullv then none else some v
    | none => none)

/-- Embeds _infer_arrow_schema: empty input gives the empty schema; else one
field per sampled name, sorted, with the inferred type, always nullable. -/
def inferArrowSchema (records : List Record) : ArrowSchema :=
  if records.isEmpty then []
  else (sampleFieldNames records).map (fun n =>
    { name := n, type := inferArrowType (nonNullSamples n records), nullable := true })

/-! ### Batch building (_records_to_arrow_batch) -/

/-- A cell of a built Arrow column. -/
inductive ArrowCell where
  | null
  | boolc (b : Bool)
  | intc (n : Int)
  | floatc (r : String)
  | tsc (iso : String)
  | datec (iso : String)
  | strc (s : String)
deriving DecidableEq, Repr

/-- Models the conversion of a single Python value performed by the external
pa.array constructor for a given target type: None always becomes a typed
null; a value of the matching Python type converts; anything else is a
conversion failure (ArrowInvalid), returned as Option.none. -/
def convertValue (t : ArrowType) (v : PyValue) : Option ArrowCell :=
  match v with
  | .nullv => some .null
  | .boolv b => if t = .bool then some (.boolc b) else none
  | .intv n =>
    match t with
    | .int64 => if -(2 ^ 63) ≤ n ∧ n < 2 ^ 63 then some (.intc n) else none
    | .float64 => some (.floatc (toString n))
    | _ => none
  | .floatv r => if t = .float64 then some (.floatc r) else none
  | .datetimev iso => if t = .timestampUs then some (.tsc iso) else none
  | .datev iso => if t = .date32 then some (.datec iso) else none
  | .strv _ => none

/-- The string-fallback column of _records_to_arrow_batch: every non-null
value stringified with str(), None preserved as null. -/
def stringifyColumn (vals : List PyValue) : List ArrowCell :=
  vals.map (fun v => match v with
    | .nullv => .null
    | v => .strc (pyStr v))

/-- Convert every element, failing as a whole when any single element fails
(the all-or-nothing behavior of bulk array construction). -/
def optionMapAll (f : α → Option β) : List α → Option (List β)
  | [] => some []
  | x :: xs =>
    match f x with
    | some y => (optionMapAll f xs).map (fun ys => y :: ys)
    | none => none

/-- The typed pa.array construction attempted inside the try block: for the
five typed branches every value must convert, else the whole construction
fails; the explicit string branch stringifies and cannot fail. -/
def attemptTypedArray (t : ArrowType) (vals : List PyValue) : Option (List ArrowCell) :=
  match t with
  | .string => some (stringifyColumn vals)
  | _ => optionMapAll (convertValue t) vals

/-- Embeds the per-field body of _records_to_arrow_batch: try the typed
array; on any single-value conversion failure fall back to the stringified
column (the except branch). -/
def buildColumn (t : ArrowType) (vals : List PyValue) : List ArrowCell :=
  match attemptTypedArray t vals with
  | some arr => arr
  | none => stringifyColumn vals

/-- An Arrow record batch: the schema it was built against plus one column
per schema field.  Models pa.record_batch(arrays, schema); the external
constructor is modelled as plain pairing. -/
structure ArrowBatch where
  schema : ArrowSchema
  columns : List (List ArrowCell)
deriving DecidableEq, Repr

/-- Embeds _records_to_arrow_batch: one column per schema field, cell values
drawn by record.get(field.name) (missing key gives None). -/
def recordsToArrowBatch (records : List Record) (schema : ArrowSchema) : ArrowBatch :=
  { schema := schema,
    columns := schema.map (fun f =>
      buildColumn f.type (records.map (fun r => (r.lookup f.name).getD .nullv))) }

/-! ### Table conversion (_convert_to_arrow_table) -/

/-- An Arrow table: a schema plus the batches it was assembled from
(pa.Table.from_batches(all_batches, schema)). -/
structure ArrowTable where
  schema : ArrowSchema
  batches : List ArrowBatch
deriving DecidableEq, Repr

/-- The window start offsets range(0, len, step) of the batching loop. -/
def sliceStarts (len step : Nat) : List Nat :=
  (List.range ((len + step - 1) / step)).map (fun k => k * step)

/-- The fold body of the _convert_to_arrow_table loop: per window, infer the
schema only if none has been inferred yet, then build the batch with it. -/
def convertStep (records : List Record) (acc : List ArrowBatch × Option ArrowSchema)
    (i : Nat) : List ArrowBatch × Option ArrowSchema :=
  let batchRecords := (records.drop i).take 10000
  let schema := match acc.2 with
    | some s => s
    | none => inferArrowSchema batchRecords
  (acc.1 ++ [recordsToArrowBatch batchRecords schema], some schema)

/-- Embeds _convert_to_arrow_table for an iterable of records: empty input
gives the empty table, else windows of up to 10000 records are accumulated
into batches sharing the schema inferred from the first window. -/
def convertToArrowTable (records : List Record) : ArrowTable :=
  if records.isEmpty then { schema := [], batches := [] }
  else
    let res := (sliceStarts records.length 10000).foldl (convertStep records) ([], none)
    { schema := res.2.getD [], batches := res.1 }

/-! ### Arrow input writing with column selection (_write_input_data_arrow) -/

/-- The column names of a table (arrow_table.column_names). -/
def tableColumnNames (t : ArrowTable) : List String := t.schema.map (fun f => f.name)

/-- Models pa.Table.select: keep exactly the named columns, in the order of
the selection list, in the schema and in every batch. -/
def tableSelect (t : ArrowTable) (cols : List String) : ArrowTable :=
  { schema := cols.filterMap (fun c => t.schema.find? (fun f => f.name = c)),
    batches := t.batches.map (fun b =>
      { schema := cols.filterMap (fun c => b.schema.find? (fun f => f.name = c)),
        columns := (cols.filterMap (fun c =>
          (b.schema.zip b.columns).find? (fun p => p.1.name = c))).map Prod.snd }) }

/-- Embeds the table construction and column selection of
_write_input_data_arrow: if self.select is truthy, filter the selection to
the columns present in the table, and select them only when that filtered
list is nonempty.  The returned table is what the IPC writer then streams. -/
def writeInputDataArrow (input : List Record) (select : Option (List String)) : ArrowTable :=
  let t := convertToArrowTable input
  match select with
  | none => t
  | some sel =>
    if sel.isEmpty then t
    else
      let availableColumns := sel.filter (fun c => (tableColumnNames t).contains c)
      if availableColumns.isEmpty then t
      else tableSelect t availableColumns

/-! ### CSV input writing (_write_input_data_csv) -/

/-- One CSV cell of an emitted row: str(record.get(h, '')); a missing field
gives the empty string, a field present with value None gives str(None). -/
def csvCell (r : Record) (h : String) : String :=
  match r.lookup h with
  | some v => pyStr v
  | none => ""

/-- The result of the CSV input writer: the emitted rows (header first, one
cell list per csv_writer.writerow call) and the final record_count. -/
structure CsvOut where
  rows : List (List String)
  count : Nat
deriving DecidableEq, Repr

/-- Embeds the loop of _write_input_data_csv: count every record; skip empty
records; on the first non-empty record fix the headers (the selected columns
present in that record when a selection is given, else its keys) and write
the header row; for every non-empty record thereafter write the row of
stringified cells, provided the header list is nonempty. -/
def csvLoop (selectedColumns : Option (List String)) :
    List Record → Option (List String) → CsvOut
  | [], _ => { rows := [], count := 0 }
  | r :: rest, headers =>
    if r.isEmpty then
      let out := csvLoop selectedColumns rest headers
      { rows := out.rows, count := out.count + 1 }
    else
      match headers with
      | none =>
        let hs := match selectedColumns with
          | some sel => sel.filter (fun c => (r.lookup c).isSome)
          | none => recordKeys r
        let out := csvLoop selectedColumns rest (some hs)
        if hs.isEmpty then { rows := hs :: out.rows, count := out.count + 1 }
        else { rows := hs :: hs.map (csvCell r) :: out.rows, count := out.count + 1 }
      | some hs =>
        let out := csvLoop selectedColumns rest headers
        if hs.isEmpty then { rows := out.rows, count := out.count + 1 }
        else { rows := hs.map (csvCell r) :: out.rows, count := out.count + 1 }

/-- Embeds _write_input_data_csv: resolve the Python truthiness of
self.select (None or an empty list leave selected_columns unset), then run
the record loop. -/
def writeInputDataCsv (input : List Record) (select : Option (List String)) : CsvOut :=
  let selectedColumns : Option (List String) :=
    match select with
    | some s => if s.isEmpty then none else some s
    | none => none
  csvLoop selectedColumns input none

/-! ### Byte streams and the Arrow preamble (_read_output_stream_arrow) -/

/-- A readable byte sink: its full contents, the current read position, and
whether it supports rewinding (hasattr(stdout, 'seek')). -/
structure ByteStream where
  data : List Nat
  pos : Nat
  seekable : Bool
deriving DecidableEq, Repr

/-- stdout.read(n): return up to n bytes from the position and advance it,
clamped at end of data. -/
def streamRead (s : ByteStream) (n : Nat) : List Nat × ByteStream :=
  ((s.data.drop s.pos).take n, { s with pos := min (s.pos + n) s.data.length })

/-- stdout.read(): the remainder of the stream, position moved to the end. -/
def streamReadAll (s : ByteStream) : List Nat × ByteStream :=
  (s.data.drop s.pos, { s with pos := s.data.length })

/-- The bytes still unread at the current position. -/
def remainingBytes (s : ByteStream) : List Nat := s.data.drop s.pos

/-- The 6 magic bytes b'ARROW1'. -/
def arrowMagic : List Nat := [65, 82, 82, 79, 87, 49]

/-- Embeds the preamble handling of _read_output_stream_arrow: read the
first 6 bytes; on the magic sequence additionally skip the 2-byte pad; else
seek(0) when the sink supports it, else rebuild a fresh (seekable) BytesIO
from the already-read bytes plus the remainder. -/
def preprocessArrow (stdout : ByteStream) : ByteStream :=
  let r1 := streamRead stdout 6
  let firstBytes := r1.1
  let s1 := r1.2
  if firstBytes = arrowMagic then (streamRead s1 2).2
  else if stdout.seekable then { s1 with pos := 0 }
  else
    let rest := streamReadAll s1
    { data := firstBytes ++ rest.1, pos := 0, seekable := true }

/-! ### The columnar envelope parser (models pa.ipc.open_stream)

The external pyarrow reader is modelled over a simplified self-describing
envelope: a 4-byte continuation marker, a field count followed by the
fields (length-prefixed name and a type code), then batch messages (tag 1,
a row count, one cell sequence per schema field) closed by an end-of-stream
tag 0.  Any structural problem is an ArrowInvalid-style failure, returned
as Except.error. -/

/-- Decode a length-prefixed string. -/
def decodeStringAt (bs : List Nat) : Option (String × List Nat) :=
  match bs with
  | n :: rest =>
    if rest.length < n then none
    else some (String.mk ((rest.take n).map Char.ofNat), rest.drop n)
  | [] => none

/-- Decode one cell: 0 null, 1 length-prefixed string, 2 integer. -/
def decodeCell : List Nat → Option (ArrowCell × List Nat)
  | 0 :: rest => some (.null, rest)
  | 1 :: rest => (decodeStringAt rest).map (fun p => (.strc p.1, p.2))
  | 2 :: n :: rest => some (.intc n, rest)
  | _ => none

/-- Decode exactly k cells. -/
def decodeCells : Nat → List Nat → Option (List ArrowCell × List Nat)
  | 0, bs => some ([], bs)
  | k + 1, bs =>
    match decodeCell bs with
    | some (c, rest) => (decodeCells k rest).map (fun p => (c :: p.1, p.2))
    | none => none

/-- The type encoded by a schema type code. -/
def typeOfCode : Nat → Option ArrowType
  | 0 => some .string
  | 1 => some .int64
  | 2 => some .float64
  | 3 => some .bool
  | 4 => some .timestampUs
  | 5 => some .date32
  | _ => none

/-- Decode one schema field: length-prefixed name then a type code. -/
def decodeField (bs : List Nat) : Option (ArrowField × List Nat) :=
  match decodeStringAt bs with
  | some (name, rest) =>
    match rest with
    | tc :: rest2 => (typeOfCode tc).map (fun t => ({ name := name, type := t, nullable := true }, rest2))
    | [] => none
  | none => none

/-- Decode exactly k schema fields. -/
def decodeFields : Nat → List Nat → Option (ArrowSchema × List Nat)
  | 0, bs => some ([], bs)
  | k + 1, bs =>
    match decodeField bs with
    | some (f, rest) => (decodeFields k rest).map (fun p => (f :: p.1, p.2))
    | none => none

/-- Decode one cell sequence of the given row count per schema column. -/
def decodeColumns (nRows : Nat) : Nat → List Nat → Option (List (List ArrowCell) × List Nat)
  | 0, bs => some ([], bs)
  | k + 1, bs =>
    match decodeCells nRows bs with
    | some (col, rest) => (decodeColumns nRows k rest).map (fun p => (col :: p.1, p.2))
    | none => none

/-- Decode the batch messages until the end-of-stream tag, fuelled by the
remaining byte count. -/
def decodeBatchSeq (schema : ArrowSchema) : Nat → List Nat → Option (List ArrowBatch)
  | _, 0 :: rest => if rest.isEmpty then some [] else none
  | fuel + 1, 1 :: nRows :: rest =>
    match decodeColumns nRows schema.length rest with
    | some (cols, rest2) =>
      (decodeBatchSeq schema fuel rest2).map (fun bs => { schema := schema, columns := cols } :: bs)
    | none => none
  | _, _ => none

/-- Models pa.ipc.open_stream over the simplified envelope; a reader is the
eagerly decoded batch sequence. -/
def openIpcStream (bs : List Nat) : Except String (List ArrowBatch) :=
  if bs.take 4 ≠ [255, 255, 255, 255] then
    .error "stream did not start with a schema message"
  else
    match bs.drop 4 with
    | nFields :: rest =>
      match decodeFields nFields rest with
      | some (schema, rest2) =>
        match decodeBatchSeq schema (rest2.length + 1) rest2 with
        | some batches => .ok batches
        | none => .error "invalid record batch message"
      | none => .error "invalid schema message"
    | [] => .error "empty stream"

/-- Embeds _read_output_stream_arrow: handle the preamble, open the IPC
stream, and wrap any ArrowInvalid-style failure in a SlingError message;
there is no fallback to CSV decoding. -/
def readOutputStreamArrow (stdout : ByteStream) : Except String (List ArrowBatch) :=
  match openIpcStream (remainingBytes (preprocessArrow stdout)) with
  | .ok reader => .ok reader
  | .error e => .error ("Failed to read Arrow output stream: " ++ e)

/-- column[row_idx].as_py(): back to a native Python value. -/
def cellToPy : ArrowCell → PyValue
  | .null => .nullv
  | .boolc b => .boolv b
  | .intc n => .intv n
  | .floatc r => .floatv r
  | .tsc iso => .datetimev iso
  | .datec iso => .datev iso
  | .strc s => .strv s

/-- table.num_rows of a batch (all columns share one length). -/
def batchNumRows (b : ArrowBatch) : Nat :=
  match b.columns with
  | [] => 0
  | c :: _ => c.length

/-- Embeds the record assembly of _read_output_stream_arrow_to_dicts: per
row index, one (column name, native value) pair per column, preserving the
schema's column order. -/
def batchToRecords (b : ArrowBatch) : List Record :=
  (List.range (batchNumRows b)).map (fun i =>
    (b.schema.map (fun f => f.name)).zip (b.columns.map (fun col => cellToPy (col.getD i .null))))

/-- Embeds _read_output_stream_arrow_to_dicts: open the reader, yield every
batch's records in order; a failure from the inner open is re-wrapped by the
outer except-clause, never degraded to CSV decoding. -/
def readOutputStreamArrowToDicts (stdout : ByteStream) : Except String (List Record) :=
  match readOutputStreamArrow stdout with
  | .ok batches => .ok (batches.flatMap batchToRecords)
  | .error e => .error ("Failed to read output stream: " ++ e)

/-! ### CSV output decoding (_read_output_stream_csv) -/

/-- A whitespace char as Python str.strip removes. -/
def isStripChar (c : Char) : Bool :=
  c = ' ' || c = '\t' || c = '\n' || c = '\r'

/-- Python str.strip(). -/
def stripS (s : String) : String :=
  String.mk (((s.data.dropWhile isStripChar).reverse.dropWhile isStripChar).reverse)

/-- Models the csv.reader tokenization of one line: comma-separated fields
with quote toggling; a NUL byte in the line is a csv.Error-style failure
(Option.none). -/
def splitCsvAux : List Char → Bool → List Char → List String → Option (List String)
  | [], _, cur, acc => some (acc ++ [String.mk cur.reverse])
  | c :: cs, inQ, cur, acc =>
    if c.toNat = 0 then none
    else if inQ then
      if c = '"' then splitCsvAux cs false cur acc
      else splitCsvAux cs true (c :: cur) acc
    else if c = '"' then splitCsvAux cs true cur acc
    else if c = ',' then splitCsvAux cs false [] (acc ++ [String.mk cur.reverse])
    else splitCsvAux cs false (c :: cur) acc

/-- Parse one CSV line into its values (csv.reader on a single line). -/
def parseCsvLine (s : String) : Option (List String) :=
  splitCsvAux s.data false [] []

/-- The record built from one parsed CSV row: values padded with empty
strings when fewer than the headers, truncated when more, then zipped
positionally against the headers. -/
def mkCsvRecord (headers values : List String) : Record :=
  headers.zip (((values ++ List.replicate (headers.length - values.length) "").take headers.length).map PyValue.strv)

/-- Embeds the per-line loop of _read_output_stream_csv: skip lines that
strip to empty; on a tokenization failure skip the line and continue; else
yield the zipped record. -/
def processCsvLines (headers : List String) : List String → List Record
  | [] => []
  | line :: rest =>
    let s := stripS line
    if s = "" then processCsvLines headers rest
    else
      match parseCsvLine s with
      | some values => mkCsvRecord headers values :: processCsvLines headers rest
      | none => processCsvLines headers rest

/-- Embeds _read_output_stream_csv: no line or an empty first line yields
nothing; a header parse failure is swallowed by the outer handler (silent
end); else the remaining lines are processed against the parsed headers. -/
def readOutputStreamCsv (lines : List String) : List Record :=
  match lines with
  | [] => []
  | first :: rest =>
    let firstS := stripS first
    if firstS = "" then []
    else
      match parseCsvLine firstS with
      | some headers => processCsvLines headers rest
      | none => []

/-- The lines of a raw stdout byte sequence, as iterating the binary file
yields them (split on the newline byte; stripping makes the trailing piece
harmless). -/
def bytesToLines (bytes : List Nat) : List String :=
  (String.mk (bytes.map Char.ofNat)).splitOn "\n"

/-! ### Process orchestration (stream / stream_arrow / run) -/

/-- What the head of stream() / stream_arrow() decides before any process is
spawned. -/
inductive PreAction where
  | runToTarget
  | usageError (msg : String)
  | proceed
deriving DecidableEq, Repr

/-- Python truthiness of self.tgt_object (an unset or empty string is
falsy). -/
def tgtTruthy : Option String → Bool
  | some s => !(s = "")
  | none => false

/-- Embeds the head of stream(): a truthy target object runs the command
normally and returns an empty iterator; supplied input raises the usage
error; otherwise the child process is spawned. -/
def streamPre (tgtObject : Option String) (inputSupplied : Bool) : PreAction :=
  if tgtTruthy tgtObject then .runToTarget
  else if inputSupplied then .usageError "pointless to pass input and stream it back?"
  else .proceed

/-- Embeds the head of stream_arrow(): missing pyarrow, a truthy target
object, or supplied input each raise a usage error before spawning. -/
def streamArrowPre (hasArrow : Bool) (tgtObject : Option String) (inputSupplied : Bool) : PreAction :=
  if !hasArrow then .usageError "PyArrow is not available. Install with pip install sling[arrow] to use stream_arrow()."
  else if tgtTruthy tgtObject then .usageError "stream_arrow() cannot be used with a target object. Use run() method instead."
  else if inputSupplied then .usageError "pointless to pass input and stream it back?"
  else .proceed

/-- Whether a pre-spawn decision is a raised usage error. -/
def isUsageError : PreAction → Bool
  | .usageError _ => true
  | _ => false

/-- The observable outcome of one finished child invocation. -/
structure ProcessResult where
  returncode : Int
  stderrText : String
  stdoutData : List Nat
deriving DecidableEq, Repr

/-- The error message both stream() and run() raise on a nonzero exit. -/
def processFailureMsg (p : ProcessResult) : String :=
  "Sling command failed with return code: " ++ toString p.returncode ++ "\n" ++ p.stderrText

/-- The records the output loop yields to the caller before the exit status
is examined: Arrow decoding when in Arrow mode (nothing is yielded when the
open itself fails), else CSV decoding. -/
def readOutputStreamYields (useArrow : Bool) (stdoutData : List Nat) : List Record :=
  if useArrow then
    match readOutputStreamArrowToDicts { data := stdoutData, pos := 0, seekable := false } with
    | .ok records => records
    | .error _ => []
  else readOutputStreamCsv (bytesToLines stdoutData)

/-- Embeds the tail of stream(): the records already yielded from the
child's stdout, and the final status check that raises on a nonzero exit
with the exit code and the captured stderr text. -/
def streamRun (useArrow : Bool) (p : ProcessResult) : List Record × Except String Unit :=
  (readOutputStreamYields useArrow p.stdoutData,
   if p.returncode ≠ 0 then .error (processFailureMsg p) else .ok ())

/-- Embeds the status check of run(): nonzero exit raises the same error. -/
def runCmdFinish (p : ProcessResult) : Except String Unit :=
  if p.returncode ≠ 0 then .error (processFailureMsg p) else .ok ()

/-! ## Lemmas -/

/-! ### Sorting infrastructure -/

theorem lexLe_total (a b : List Char) : lexLe a b = true ∨ lexLe b a = true := by
  induction a generalizing b with
  | nil => left; rfl
  | cons x xs ih =>
    cases b with
    | nil => right; rfl
    | cons y ys =>
      simp only [lexLe]
      rcases Nat.lt_trichotomy x.toNat y.toNat with h | h | h
      · left; simp [h]
      · have hxy : ¬ x.toNat < y.toNat := by omega
        have hyx : ¬ y.toNat < x.toNat := by omega
        rcases ih ys with h2 | h2
        · left; simp [hxy, hyx, h2]
        · right; simp [hxy, hyx, h2]
      · right; simp [h]

theorem strLe_total (a b : String) : strLe a b = true ∨ strLe b a = true :=
  lexLe_total a.data b.data

theorem lexLe_trans {a b c : List Char} (hab : lexLe a b = true) (hbc : lexLe b c = true) :
    lexLe a c = true := by
  induction a generalizing b c with
  | nil => rfl
  | cons x xs ih =>
    cases b with
    | nil => simp [lexLe] at hab
    | cons y ys =>
      cases c with
      | nil => simp [lexLe] at hbc
      | cons z zs =>
        simp only [lexLe] at hab hbc ⊢
        rcases Nat.lt_trichotomy x.toNat y.toNat with h1 | h1 | h1
        · rcases Nat.lt_trichotomy y.toNat z.toNat with h2 | h2 | h2
          · simp [show x.toNat < z.toNat by omega]
          · simp [show x.toNat < z.toNat by omega]
          · simp [h2, show ¬ y.toNat < z.toNat by omega] at hbc
        · rcases Nat.lt_trichotomy y.toNat z.toNat with h2 | h2 | h2
          · simp [show x.toNat < z.toNat by omega]
          · have hxz : ¬ x.toNat < z.toNat := by omega
            have hzx : ¬ z.toNat < x.toNat := by omega
            simp only [hxz, if_false, hzx]
            simp only [show ¬ x.toNat < y.toNat by omega, if_false,
              show ¬ y.toNat < x.toNat by omega] at hab
            simp only [show ¬ y.toNat < z.toNat by omega, if_false,
              show ¬ z.toNat < y.toNat by omega] at hbc
            exact ih hab hbc
          · simp [h2, show ¬ y.toNat < z.toNat by omega] at hbc
        · simp [h1, show ¬ x.toNat < y.toNat by omega] at hab

theorem strLe_trans {a b c : String} (hab : strLe a b = true) (hbc : strLe b c = true) :
    strLe a c = true :=
  lexLe_trans hab hbc

theorem insertStr_perm (x : String) (l : List String) :
    List.Perm (insertStr x l) (x :: l) := by
  induction l with
  | nil => simp [insertStr]
  | cons y ys ih =>
    simp only [insertStr]
    by_cases h : strLe x y = true
    · simp [h]
    · simp only [h, if_false]
      exact List.Perm.trans (List.Perm.cons y ih) (List.Perm.swap x y ys)

theorem mem_insertStr {y x : String} {l : List String} :
    y ∈ insertStr x l ↔ y = x ∨ y ∈ l := by
  rw [(insertStr_perm x l).mem_iff]
  simp

theorem pairwise_insertStr (x : String) (l : List String)
    (h : l.Pairwise (fun a b => strLe a b = true)) :
    (insertStr x l).Pairwise (fun a b => strLe a b = true) := by
  induction l with
  | nil => simp [insertStr]
  | cons y ys ih =>
    rcases List.pairwise_cons.mp h with ⟨hy, hys⟩
    simp only [insertStr]
    by_cases hxy : strLe x y = true
    · rw [if_pos hxy]
      refine List.pairwise_cons.mpr ⟨?_, h⟩
      intro b hb
      rcases List.mem_cons.mp hb with hb | hb
      · rw [hb]
        exact hxy
      · exact strLe_trans hxy (hy b hb)
    · rw [if_neg hxy]
      refine List.pairwise_cons.mpr ⟨?_, ih hys⟩
      intro b hb
      rcases mem_insertStr.mp hb with hb | hb
      · rw [hb]
        rcases strLe_total x y with h2 | h2
        · exact absurd h2 hxy
        · exact h2
      · exact hy b hb

theorem sortStrings_perm (l : List String) : List.Perm (sortStrings l) l := by
  induction l with
  | nil => simp [sortStrings]
  | cons x xs ih =>
    simp only [sortStrings, List.foldr_cons]
    exact List.Perm.trans (insertStr_perm x (xs.foldr insertStr [])) (List.Perm.cons x ih)

theorem sortStrings_pairwise (l : List String) :
    (sortStrings l).Pairwise (fun a b => strLe a b = true) := by
  induction l with
  | nil => simp [sortStrings]
  | cons x xs ih =>
    simp only [sortStrings, List.foldr_cons]
    exact pairwise_insertStr x (xs.foldr insertStr []) ih

theorem mem_sortStrings {x : String} {l : List String} :
    x ∈ sortStrings l ↔ x ∈ l :=
  (sortStrings_perm l).mem_iff

theorem nodup_sortStrings {l : List String} (h : l.Nodup) : (sortStrings l).Nodup :=
  ((sortStrings_perm l).nodup_iff).mpr h

/-! ### Schema inference lemmas and claim C3 -/

theorem all_false_of_mem {α : Type} {p : α → Bool} {l : List α} {x : α}
    (hx : x ∈ l) (hpx : p x = false) : l.all p = false := by
  cases h : l.all p with
  | false => rfl
  | true =>
    have := List.all_eq_true.mp h x hx
    rw [hpx] at this
    exact absurd this (by simp)

theorem sampleFieldNames_pairwise (records : List Record) :
    (sampleFieldNames records).Pairwise (fun a b => strLe a b = true ∧ a ≠ b) := by
  have h1 := sortStrings_pairwise (((records.take 100).flatMap recordKeys).dedup)
  have h2 : (sampleFieldNames records).Nodup :=
    nodup_sortStrings (List.nodup_dedup _)
  exact List.Pairwise.and h1 h2

theorem mem_sampleFieldNames {n : String} {records : List Record} :
    n ∈ sampleFieldNames records ↔ ∃ r ∈ records.take 100, n ∈ recordKeys r := by
  rw [sampleFieldNames, mem_sortStrings, List.mem_dedup, List.mem_flatMap]

theorem inferArrowSchema_names (records : List Record) (h : records.isEmpty = false) :
    (inferArrowSchema records).map (fun f => f.name) = sampleFieldNames records := by
  simp [inferArrowSchema, h, List.map_map, Function.comp_def]

/-- C3: the inferred schema's field list is the lexicographically sorted,
duplicate-free union of the keys seen across the sample (the first 100
records); every field is unconditionally nullable and typed from the
field's non-null sample values; and the type inference rules are: all
booleans give boolean, all (non-boolean) integers give int64, all
non-boolean integers-or-floats give float64, all datetimes give a
microsecond timestamp, all dates (a datetime being a date instance in
Python) give date32, and otherwise — including an empty non-null sample —
string. -/
theorem c3_schema_inference (records : List Record) (vs : List PyValue) (hvs : vs ≠ []) :
    ((inferArrowSchema records).map (fun f => f.name)).Pairwise
        (fun a b => strLe a b = true ∧ a ≠ b)
    ∧ (∀ n, n ∈ (inferArrowSchema records).map (fun f => f.name)
        ↔ ∃ r ∈ records.take 100, n ∈ recordKeys r)
    ∧ (∀ f ∈ inferArrowSchema records, f.nullable = true)
    ∧ (∀ f ∈ inferArrowSchema records, f.type = inferArrowType (nonNullSamples f.name records))
    ∧ inferArrowType [] = .string
    ∧ ((∀ v ∈ vs, isBoolInst v = true) → inferArrowType vs = .bool)
    ∧ ((∀ v ∈ vs, isIntInst v = true ∧ isBoolInst v = false) → inferArrowType vs = .int64)
    ∧ ((∀ v ∈ vs, (isIntInst v || isFloatInst v) = true ∧ isBoolInst v = false) →
        (∃ v ∈ vs, isFloatInst v = true) → inferArrowType vs = .float64)
    ∧ ((∀ v ∈ vs, isDatetimeInst v = true) → inferArrowType vs = .timestampUs)
    ∧ ((∀ v ∈ vs, isDateInst v = true) → (∃ v ∈ vs, isDatetimeInst v = false) →
        inferArrowType vs = .date32)
    ∧ ((¬ ∀ v ∈ vs, isBoolInst v = true) →
        (¬ ∀ v ∈ vs, isIntInst v = true ∧ isBoolInst v = false) →
        (¬ ∀ v ∈ vs, (isIntInst v || isFloatInst v) = true ∧ isBoolInst v = false) →
        (¬ ∀ v ∈ vs, isDatetimeInst v = true) →
        (¬ ∀ v ∈ vs, isDateInst v = true) →
        inferArrowType vs = .string) := by
  obtain ⟨v₀, vs₀, rfl⟩ : ∃ a l, vs = a :: l := by
    cases vs with
    | nil => exact absurd rfl hvs
    | cons a l => exact ⟨a, l, rfl⟩
  refine ⟨?_, ?_, ?_, ?_, rfl, ?_, ?_, ?_, ?_, ?_, ?_⟩
  · by_cases h : records.isEmpty
    · simp [inferArrowSchema, h]
    · rw [inferArrowSchema_names records (by simpa using h)]
      exact sampleFieldNames_pairwise records
  · intro n
    by_cases h : records.isEmpty
    · rw [List.isEmpty_iff] at h
      subst h
      simp [inferArrowSchema]
    · rw [inferArrowSchema_names records (by simpa using h)]
      exact mem_sampleFieldNames
  · intro f hf
    by_cases h : records.isEmpty
    · simp [inferArrowSchema, h] at hf
    · simp only [inferArrowSchema, h, if_neg, Bool.false_eq_true, if_false,
        List.mem_map] at hf
      obtain ⟨n, _, rfl⟩ := hf
      rfl
  · intro f hf
    by_cases h : records.isEmpty
    · simp [inferArrowSchema, h] at hf
    · simp only [inferArrowSchema, h, if_neg, Bool.false_eq_true, if_false,
        List.mem_map] at hf
      obtain ⟨n, _, rfl⟩ := hf
      rfl
  · intro hall
    have hb : (v₀ :: vs₀).all (fun v => isBoolInst v) = true := List.all_eq_true.mpr hall
    simp [inferArrowType, hb]
  · intro hall
    have hi : (v₀ :: vs₀).all (fun v => isIntInst v && !isBoolInst v) = true :=
      List.all_eq_true.mpr (fun v hv => by
        rcases hall v hv with ⟨h1, h2⟩
        simp [h1, h2])
    have hnb : (v₀ :: vs₀).all (fun v => isBoolInst v) = false :=
      all_false_of_mem (List.mem_cons_self v₀ vs₀) (hall v₀ (List.mem_cons_self v₀ vs₀)).2
    simp [inferArrowType, hi, hnb]
  · intro hall hex
    obtain ⟨vf, hvf, hvff⟩ := hex
    have hif : (v₀ :: vs₀).all (fun v => (isIntInst v || isFloatInst v) && !isBoolInst v) = true :=
      List.all_eq_true.mpr (fun v hv => by
        rcases hall v hv with ⟨h1, h2⟩
        simp only [h1, h2]
        rfl)
    have hnb : (v₀ :: vs₀).all (fun v => isBoolInst v) = false :=
      all_false_of_mem (List.mem_cons_self v₀ vs₀) (hall v₀ (List.mem_cons_self v₀ vs₀)).2
    have hni : (v₀ :: vs₀).all (fun v => isIntInst v && !isBoolInst v) = false := by
      refine all_false_of_mem hvf ?_
      cases vf with
      | floatv r => rfl
      | nullv => exact absurd hvff (by simp [isFloatInst])
      | boolv b => exact absurd hvff (by simp [isFloatInst])
      | intv n => exact absurd hvff (by simp [isFloatInst])
      | strv s => exact absurd hvff (by simp [isFloatInst])
      | datev s => exact absurd hvff (by simp [isFloatInst])
      | datetimev s => exact absurd hvff (by simp [isFloatInst])
    simp [inferArrowType, hif, hnb, hni]
  · intro hall
    have hd : (v₀ :: vs₀).all (fun v => isDatetimeInst v) = true := List.all_eq_true.mpr hall
    have hv₀ := hall v₀ (List.mem_cons_self v₀ vs₀)
    have hnb : (v₀ :: vs₀).all (fun v => isBoolInst v) = false := by
      refine all_false_of_mem (List.mem_cons_self v₀ vs₀) ?_
      cases v₀ <;> first | rfl | exact absurd hv₀ (by simp [isDatetimeInst])
    have hni : (v₀ :: vs₀).all (fun v => isIntInst v && !isBoolInst v) = false := by
      refine all_false_of_mem (List.mem_cons_self v₀ vs₀) ?_
      cases v₀ <;> first | rfl | exact absurd hv₀ (by simp [isDatetimeInst])
    have hnf : (v₀ :: vs₀).all (fun v => (isIntInst v || isFloatInst v) && !isBoolInst v) = false := by
      refine all_false_of_mem (List.mem_cons_self v₀ vs₀) ?_
      cases v₀ <;> first | rfl | exact absurd hv₀ (by simp [isDatetimeInst])
    simp [inferArrowType, hd, hnb, hni, hnf]
  · intro hall hex
    obtain ⟨vd, hvd, hvdd⟩ := hex
    have hd : (v₀ :: vs₀).all (fun v => isDateInst v) = true := List.all_eq_true.mpr hall
    have hv₀ := hall v₀ (List.mem_cons_self v₀ vs₀)
    have hnb : (v₀ :: vs₀).all (fun v => isBoolInst v) = false := by
      refine all_false_of_mem (List.mem_cons_self v₀ vs₀) ?_
      cases v₀ <;> first | rfl | exact absurd hv₀ (by simp [isDateInst])
    have hni : (v₀ :: vs₀).all (fun v => isIntInst v && !isBoolInst v) = false := by
      refine all_false_of_mem (List.mem_cons_self v₀ vs₀) ?_
      cases v₀ <;> first | rfl | exact absurd hv₀ (by simp [isDateInst])
    have hnf : (v₀ :: vs₀).all (fun v => (isIntInst v || isFloatInst v) && !isBoolInst v) = false := by
      refine all_false_of_mem (List.mem_cons_self v₀ vs₀) ?_
      cases v₀ <;> first | rfl | exact absurd hv₀ (by simp [isDateInst])
    have hnd : (v₀ :: vs₀).all (fun v => isDatetimeInst v) = false := by
      refine all_false_of_mem hvd ?_
      exact hvdd
    simp [inferArrowType, hd, hnb, hni, hnf, hnd]
  · intro h1 h2 h3 h4 h5
    have b1 : (v₀ :: vs₀).all (fun v => isBoolInst v) = false := by
      cases h : (v₀ :: vs₀).all (fun v => isBoolInst v) with
      | false => rfl
      | true => exact absurd (fun v hv => List.all_eq_true.mp h v hv) h1
    have b2 : (v₀ :: vs₀).all (fun v => isIntInst v && !isBoolInst v) = false := by
      cases h : (v₀ :: vs₀).all (fun v => isIntInst v && !isBoolInst v) with
      | false => rfl
      | true =>
        refine absurd (fun v hv => ?_) h2
        have := List.all_eq_true.mp h v hv
        constructor
        · exact (Bool.and_eq_true _ _ ▸ this).1
        · have := (Bool.and_eq_true _ _ ▸ this).2
          simpa using this
    have b3 : (v₀ :: vs₀).all (fun v => (isIntInst v || isFloatInst v) && !isBoolInst v) = false := by
      cases h : (v₀ :: vs₀).all (fun v => (isIntInst v || isFloatInst v) && !isBoolInst v) with
      | false => rfl
      | true =>
        refine absurd (fun v hv => ?_) h3
        have := List.all_eq_true.mp h v hv
        constructor
        · exact (Bool.and_eq_true _ _ ▸ this).1
        · have := (Bool.and_eq_true _ _ ▸ this).2
          simpa using this
    have b4 : (v₀ :: vs₀).all (fun v => isDatetimeInst v) = false := by
      cases h : (v₀ :: vs₀).all (fun v => isDatetimeInst v) with
      | false => rfl
      | true => exact absurd (fun v hv => List.all_eq_true.mp h v hv) h4
    have b5 : (v₀ :: vs₀).all (fun v => isDateInst v) = false := by
      cases h : (v₀ :: vs₀).all (fun v => isDateInst v) with
      | false => rfl
      | true => exact absurd (fun v hv => List.all_eq_true.mp h v hv) h5
    simp [inferArrowType, b1, b2, b3, b4, b5]

/-- Witness for C3 at a concrete schema-inference input. -/
theorem c3_schema_inference_witness :
    inferArrowType [PyValue.boolv true] = ArrowType.bool :=
  (c3_schema_inference [[("id", PyValue.intv 1), ("name", PyValue.strv "Alice")]]
    [PyValue.boolv true] (by decide)).2.2.2.2.2.1 (by decide)

/-! ### Table conversion lemmas and claim C8 -/

theorem foldl_convertStep_some (records : List Record) (starts : List Nat)
    (bs : List ArrowBatch) (s : ArrowSchema) :
    starts.foldl (convertStep records) (bs, some s)
      = (bs ++ starts.map (fun i => recordsToArrowBatch ((records.drop i).take 10000) s),
         some s) := by
  induction starts generalizing bs with
  | nil => simp
  | cons i rest ih =>
    simp only [List.foldl_cons, convertStep]
    rw [ih]
    simp

theorem inferArrowSchema_take_100 (rs : List Record) :
    inferArrowSchema rs = inferArrowSchema (rs.take 100) := by
  have h1 : (rs.take 100).take 100 = rs.take 100 := by simp [List.take_take]
  have h2 : (rs.take 100).isEmpty = rs.isEmpty := by cases rs <;> simp
  simp only [inferArrowSchema, sampleFieldNames, nonNullSamples, h1, h2]

/-- C8: the columnar encoder windows the input in slices of up to 10000
records; the schema is inferred from the first window only (and schema
inference itself reads at most the first 100 records); every window is
converted with that one schema, so all batches of the stream share it. -/
theorem c8_windowed_batching (records : List Record) (h : records ≠ []) :
    (convertToArrowTable records).schema = inferArrowSchema (records.take 10000)
    ∧ (convertToArrowTable records).schema = inferArrowSchema (records.take 100)
    ∧ (convertToArrowTable records).batches
        = (sliceStarts records.length 10000).map
            (fun i => recordsToArrowBatch ((records.drop i).take 10000)
              (inferArrowSchema (records.take 10000)))
    ∧ (∀ b ∈ (convertToArrowTable records).batches,
        b.schema = inferArrowSchema (records.take 10000))
    ∧ (∀ rs : List Record, inferArrowSchema rs = inferArrowSchema (rs.take 100)) := by
  have hlen : 0 < records.length := List.length_pos.mpr h
  have hk : 0 < (records.length + 10000 - 1) / 10000 :=
    Nat.div_pos (by omega) (by omega)
  have hslice : sliceStarts records.length 10000
      = 0 :: (((List.range ((records.length + 10000 - 1) / 10000 - 1)).map Nat.succ).map
          (fun k => k * 10000)) := by
    rw [sliceStarts, show (records.length + 10000 - 1) / 10000
        = ((records.length + 10000 - 1) / 10000 - 1) + 1 by omega,
      List.range_succ_eq_map]
    simp
  have hne : records.isEmpty = false := by
    cases records with
    | nil => exact absurd rfl h
    | cons a l => rfl
  have hfold : (sliceStarts records.length 10000).foldl (convertStep records) ([], none)
      = ((sliceStarts records.length 10000).map
          (fun i => recordsToArrowBatch ((records.drop i).take 10000)
            (inferArrowSchema (records.take 10000))),
         some (inferArrowSchema (records.take 10000))) := by
    rw [hslice]
    simp only [List.foldl_cons, convertStep, List.drop_zero]
    rw [foldl_convertStep_some]
    simp
  have htable : convertToArrowTable records
      = { schema := inferArrowSchema (records.take 10000),
          batches := (sliceStarts records.length 10000).map
            (fun i => recordsToArrowBatch ((records.drop i).take 10000)
              (inferArrowSchema (records.take 10000))) } := by
    rw [convertToArrowTable, hne]
    simp only [Bool.false_eq_true, if_false, hfold, Option.getD_some]
  refine ⟨by rw [htable], ?_, by rw [htable], ?_, fun rs => inferArrowSchema_take_100 rs⟩
  · have h1 : (convertToArrowTable records).schema = inferArrowSchema (records.take 10000) := by
      rw [htable]
    rw [h1, inferArrowSchema_take_100 (records.take 10000), List.take_take]
    norm_num
  · intro b hb
    rw [htable] at hb
    simp only [List.mem_map] at hb
    obtain ⟨i, _, rfl⟩ := hb
    rfl

/-- Witness for C8 at a concrete one-record input. -/
theorem c8_windowed_batching_witness :
    (convertToArrowTable [[("a", PyValue.intv 1)]]).schema
      = inferArrowSchema ([[("a", PyValue.intv 1)]].take 10000) :=
  (c8_windowed_batching [[("a", PyValue.intv 1)]] (by decide)).1

/-! ### Column conversion lemmas and claim C4 -/

theorem optionMapAll_eq_none {α β : Type} {f : α → Option β} {l : List α}
    (h : ∃ x ∈ l, f x = none) : optionMapAll f l = none := by
  induction l with
  | nil => simp at h
  | cons x xs ih =>
    obtain ⟨y, hy, hfy⟩ := h
    rcases List.mem_cons.mp hy with hyx | hy2
    · subst hyx
      simp [optionMapAll, hfy]
    · simp only [optionMapAll]
      cases hfx : f x with
      | none => rfl
      | some yy =>
        rw [ih ⟨y, hy2, hfy⟩]
        rfl

theorem optionMapAll_length {α β : Type} {f : α → Option β} {l : List α} {ys : List β}
    (h : optionMapAll f l = some ys) : ys.length = l.length := by
  induction l generalizing ys with
  | nil =>
    simp only [optionMapAll, Option.some.injEq] at h
    subst h
    rfl
  | cons x xs ih =>
    simp only [optionMapAll] at h
    cases hfx : f x with
    | none =>
      rw [hfx] at h
      cases h
    | some y =>
      rw [hfx] at h
      cases hrest : optionMapAll f xs with
      | none =>
        rw [hrest] at h
        cases h
      | some zs =>
        rw [hrest] at h
        have hz : y :: zs = ys := by simpa using h
        subst hz
        simp [ih hrest]

theorem attemptTypedArray_some_length {t : ArrowType} {vals : List PyValue}
    {arr : List ArrowCell} (h : attemptTypedArray t vals = some arr) :
    arr.length = vals.length := by
  cases t <;> simp only [attemptTypedArray, Option.some.injEq] at h
  case string =>
    subst h
    simp [stringifyColumn]
  all_goals exact optionMapAll_length h

theorem buildColumn_length (t : ArrowType) (vals : List PyValue) :
    (buildColumn t vals).length = vals.length := by
  unfold buildColumn
  cases h : attemptTypedArray t vals with
  | some arr =>
    exact attemptTypedArray_some_length h
  | none =>
    simp [stringifyColumn]

/-- C4: when converting any single value of a column to the column's
inferred type fails, the whole column of that batch falls back to string
representation (every non-null value stringified, None preserved as null);
the batch is still produced with one column per schema field and one cell
per record, so the failure is confined to that column and never surfaces
as an error. -/
theorem c4_column_fallback (t : ArrowType) (vals : List PyValue)
    (records : List Record) (schema : ArrowSchema)
    (hfail : ∃ v ∈ vals, convertValue t v = none) :
    buildColumn t vals = stringifyColumn vals
    ∧ buildColumn t vals = vals.map (fun v => match v with
        | PyValue.nullv => ArrowCell.null
        | v => ArrowCell.strc (pyStr v))
    ∧ (buildColumn t vals).length = vals.length
    ∧ (recordsToArrowBatch records schema).columns.length = schema.length
    ∧ (∀ col ∈ (recordsToArrowBatch records schema).columns,
        col.length = records.length) := by
  have hfb : buildColumn t vals = stringifyColumn vals := by
    cases t
    case string => rfl
    all_goals
      have hn : optionMapAll (convertValue _) vals = none := optionMapAll_eq_none hfail
      simp [buildColumn, attemptTypedArray, hn]
  refine ⟨hfb, hfb.trans rfl, buildColumn_length t vals, ?_, ?_⟩
  · simp [recordsToArrowBatch]
  · intro col hcol
    simp only [recordsToArrowBatch, List.mem_map] at hcol
    obtain ⟨f, _, rfl⟩ := hcol
    rw [buildColumn_length, List.length_map]

/-- Witness for C4: an int64 column containing a string value falls back
whole to stringification. -/
theorem c4_column_fallback_witness :
    buildColumn ArrowType.int64 [PyValue.strv "x", PyValue.intv 5, PyValue.nullv]
      = stringifyColumn [PyValue.strv "x", PyValue.intv 5, PyValue.nullv] :=
  (c4_column_fallback ArrowType.int64 [PyValue.strv "x", PyValue.intv 5, PyValue.nullv]
    [] [] ⟨PyValue.strv "x", by decide, by decide⟩).1

/-! ### Claims C5 and C6: columnar decoder error policy and preamble -/

/-- C5: a structural parse failure of the columnar envelope is surfaced as
a fatal SlingError-style error by both the reader-returning and the
record-yielding decoder; neither ever degrades to a successful result (in
particular not to row-format decoding) on such a failure. -/
theorem c5_arrow_decode_error (stdout : ByteStream) (e : String)
    (h : openIpcStream (remainingBytes (preprocessArrow stdout)) = .error e) :
    readOutputStreamArrow stdout = .error ("Failed to read Arrow output stream: " ++ e)
    ∧ readOutputStreamArrowToDicts stdout
        = .error ("Failed to read output stream: "
            ++ ("Failed to read Arrow output stream: " ++ e))
    ∧ (∀ records : List Record, readOutputStreamArrowToDicts stdout ≠ .ok records)
    ∧ (∀ reader : List ArrowBatch, readOutputStreamArrow stdout ≠ .ok reader) := by
  have h1 : readOutputStreamArrow stdout
      = .error ("Failed to read Arrow output stream: " ++ e) := by
    simp only [readOutputStreamArrow, h]
  have h2 : readOutputStreamArrowToDicts stdout
      = .error ("Failed to read output stream: "
          ++ ("Failed to read Arrow output stream: " ++ e)) := by
    simp only [readOutputStreamArrowToDicts, h1]
  refine ⟨h1, h2, ?_, ?_⟩
  · intro records hok
    rw [h2] at hok
    cases hok
  · intro reader hok
    rw [h1] at hok
    cases hok

/-- Witness for C5: bytes that do not start with a valid envelope are a
fatal error of the record-yielding decoder. -/
theorem c5_arrow_decode_error_witness :
    readOutputStreamArrowToDicts { data := [1, 2, 3], pos := 0, seekable := false }
      = .error ("Failed to read output stream: "
          ++ ("Failed to read Arrow output stream: "
          ++ "stream did not start with a schema message")) :=
  (c5_arrow_decode_error { data := [1, 2, 3], pos := 0, seekable := false }
    "stream did not start with a schema message" (by rfl)).2.1

/-- C6: opening a stream reads the first 6 bytes; on the magic sequence the
2-byte pad is also skipped and parsing starts at offset 8; otherwise a
seekable stream is rewound to offset 0, and a non-seekable stream is
replaced by a reconstructed in-memory stream holding the 6 already-read
bytes concatenated with the remainder — in every non-magic case the parser
sees the full original byte sequence, so no bytes are lost. -/
theorem c6_preamble_handling (data : List Nat) (seekable : Bool) :
    remainingBytes (preprocessArrow { data := data, pos := 0, seekable := seekable })
      = (if data.take 6 = arrowMagic then data.drop 8 else data)
    ∧ preprocessArrow { data := data, pos := 0, seekable := seekable }
      = (if data.take 6 = arrowMagic then
           { data := data, pos := min 8 data.length, seekable := seekable }
         else if seekable then { data := data, pos := 0, seekable := seekable }
         else { data := data, pos := 0, seekable := true }) := by
  have hdrop0 : data.drop 0 = data := List.drop_zero data
  by_cases hm : data.take 6 = arrowMagic
  · have hlen : 6 ≤ data.length := by
      have := congrArg List.length hm
      simp only [List.length_take, arrowMagic, List.length_cons, List.length_nil] at this
      omega
    have hpre : preprocessArrow { data := data, pos := 0, seekable := seekable }
        = { data := data, pos := min 8 data.length, seekable := seekable } := by
      simp only [preprocessArrow, streamRead, hdrop0, hm, Nat.zero_add, if_pos]
      have h6 : min 6 data.length = 6 := Nat.min_eq_left hlen
      simp [h6]
    refine ⟨?_, by rw [hpre, if_pos hm]⟩
    rw [hpre, if_pos hm, remainingBytes]
    rcases Nat.le_total 8 data.length with h8 | h8
    · rw [Nat.min_eq_left h8]
    · rw [Nat.min_eq_right h8, List.drop_length, eq_comm]
      rw [List.drop_eq_nil_iff]
      exact h8
  · have hpre : preprocessArrow { data := data, pos := 0, seekable := seekable }
        = (if seekable then { data := data, pos := 0, seekable := seekable }
           else { data := data, pos := 0, seekable := true }) := by
      simp only [preprocessArrow, streamRead, streamReadAll, hdrop0, hm, Nat.zero_add,
        if_neg, if_false]
      cases seekable with
      | true => simp
      | false =>
        simp only [Bool.false_eq_true, if_false, ByteStream.mk.injEq, and_true]
        rcases Nat.le_total 6 data.length with h6 | h6
        · rw [Nat.min_eq_left h6]
          exact List.take_append_drop 6 data
        · rw [Nat.min_eq_right h6, List.drop_length, List.append_nil]
          exact List.take_of_length_le h6
    refine ⟨?_, by rw [hpre, if_neg hm]⟩
    rw [hpre, if_neg hm]
    cases seekable <;> simp [remainingBytes]

/-! ### CSV decoder lemmas and claim C7 -/

theorem processCsvLines_eq_filterMap (headers : List String) (lines : List String) :
    processCsvLines headers lines = lines.filterMap (fun line =>
      if stripS line = "" then none
      else match parseCsvLine (stripS line) with
        | some values => some (mkCsvRecord headers values)
        | none => none) := by
  induction lines with
  | nil => rfl
  | cons l rest ih =>
    simp only [processCsvLines, List.filterMap_cons]
    by_cases hs : stripS l = ""
    · simp [hs, ih]
    · simp only [hs, if_false]
      cases hp : parseCsvLine (stripS l) with
      | some values => simp [ih]
      | none => simp [ih]

theorem mkCsvRecord_length (headers values : List String) :
    (mkCsvRecord headers values).length = headers.length := by
  simp [mkCsvRecord]
  omega

theorem mkCsvRecord_keys (headers values : List String) :
    (mkCsvRecord headers values).map Prod.fst = headers := by
  rw [mkCsvRecord]
  apply List.map_fst_zip
  simp
  omega

/-- C7: with the first line read as the header, every subsequent line that
strips nonempty and tokenizes is turned into a record by padding short
value lists with empty strings, truncating long ones, and zipping
positionally against the headers (so each record has exactly one value per
header field, in header order); a line that fails to tokenize is skipped
individually and the remaining lines are still processed — a row/column
count mismatch never produces an error. -/
theorem c7_csv_decoder (first : String) (rest : List String) (headers : List String)
    (h1 : stripS first ≠ "") (h2 : parseCsvLine (stripS first) = some headers) :
    readOutputStreamCsv (first :: rest)
      = rest.filterMap (fun line =>
          if stripS line = "" then none
          else match parseCsvLine (stripS line) with
            | some values => some (mkCsvRecord headers values)
            | none => none)
    ∧ (∀ r ∈ readOutputStreamCsv (first :: rest),
        r.length = headers.length ∧ r.map Prod.fst = headers) := by
  have hmain : readOutputStreamCsv (first :: rest) = processCsvLines headers rest := by
    simp only [readOutputStreamCsv, h1, h2, if_false]
  refine ⟨hmain.trans (processCsvLines_eq_filterMap headers rest), ?_⟩
  intro r hr
  rw [hmain, processCsvLines_eq_filterMap] at hr
  rcases List.mem_filterMap.mp hr with ⟨line, _, hline⟩
  by_cases hs : stripS line = ""
  · rw [if_pos hs] at hline
    cases hline
  · rw [if_neg hs] at hline
    cases hp : parseCsvLine (stripS line) with
    | some values =>
      rw [hp] at hline
      have hrv : mkCsvRecord headers values = r := by
        simpa using hline
      rw [← hrv]
      exact ⟨mkCsvRecord_length _ _, mkCsvRecord_keys _ _⟩
    | none =>
      rw [hp] at hline
      cases hline

/-- Witness for C7: short rows are padded, long rows truncated, blank lines
skipped. -/
theorem c7_csv_decoder_witness :
    readOutputStreamCsv ["id,name", "1,a", "", "2,b,c", "3"]
      = [[("id", PyValue.strv "1"), ("name", PyValue.strv "a")],
         [("id", PyValue.strv "2"), ("name", PyValue.strv "b")],
         [("id", PyValue.strv "3"), ("name", PyValue.strv "")]] :=
  ((c7_csv_decoder "id,name" ["1,a", "", "2,b,c", "3"] ["id", "name"]
    (by decide) (by decide)).1).trans (by decide)

/-! ### Claim C9: nonzero exit status handling -/

/-- C9: when the child exits nonzero, both the streaming path and the run
path raise an error whose message carries the exit code and the captured
stderr text; the records already yielded from the child's stdout are
exactly the decoded output, unaffected by the exit status. -/
theorem c9_process_failure (useArrow : Bool) (p : ProcessResult)
    (h : p.returncode ≠ 0) :
    (streamRun useArrow p).2 = .error (processFailureMsg p)
    ∧ runCmdFinish p = .error (processFailureMsg p)
    ∧ (∃ a b : String, processFailureMsg p = a ++ toString p.returncode ++ b)
    ∧ (∃ a : String, processFailureMsg p = a ++ p.stderrText)
    ∧ (streamRun useArrow p).1 = readOutputStreamYields useArrow p.stdoutData := by
  refine ⟨?_, ?_, ?_, ?_, rfl⟩
  · simp [streamRun, h]
  · simp [runCmdFinish, h]
  · refine ⟨"Sling command failed with return code: ", "\n" ++ p.stderrText, ?_⟩
    simp [processFailureMsg, String.append_assoc]
  · exact ⟨"Sling command failed with return code: " ++ toString p.returncode ++ "\n", rfl⟩

/-- Witness for C9 at a concrete failed invocation. -/
theorem c9_process_failure_witness :
    runCmdFinish { returncode := 1, stderrText := "connection failed", stdoutData := [] }
      = .error (processFailureMsg
          { returncode := 1, stderrText := "connection failed", stdoutData := [] }) :=
  (c9_process_failure false
    { returncode := 1, stderrText := "connection failed", stdoutData := [] } (by decide)).2.1

/-! ### Claim C2: pre-spawn usage checks -/

/-- C2 counterexample: stream() with a target object set raises no usage
error at all; it runs the transfer to the target and returns an empty
iterator, contradicting the claim that this combination raises. -/
theorem c2_stream_target_counterexample :
    streamPre (some "target_table") false = PreAction.runToTarget
    ∧ isUsageError (streamPre (some "target_table") false) = false := by
  constructor
  · rfl
  · rfl

/-- C2 (amended): stream() with a truthy target object runs the transfer
normally instead of raising; supplying input to stream() raises the usage
error before any process is spawned; stream_arrow() raises the usage error
before any spawn both when a target object is set and when input is
supplied. -/
theorem c2_usage_errors (tgtObject : Option String) (inputSupplied : Bool)
    (h : tgtTruthy tgtObject = true) :
    streamPre tgtObject inputSupplied = .runToTarget
    ∧ streamArrowPre true tgtObject inputSupplied
        = .usageError "stream_arrow() cannot be used with a target object. Use run() method instead."
    ∧ (∀ inp : Bool, streamPre none inp
        = if inp then .usageError "pointless to pass input and stream it back?"
          else .proceed)
    ∧ (∀ inp : Bool, streamArrowPre true none inp
        = if inp then .usageError "pointless to pass input and stream it back?"
          else .proceed) := by
  refine ⟨?_, ?_, ?_, ?_⟩
  · simp [streamPre, h]
  · simp [streamArrowPre, h]
  · intro inp
    cases inp <;> rfl
  · intro inp
    cases inp <;> rfl

/-- Witness for C2 at a concrete target object. -/
theorem c2_usage_errors_witness :
    streamPre (some "tbl") true = PreAction.runToTarget :=
  (c2_usage_errors (some "tbl") true (by decide)).1

/-! ### CSV encoder lemmas and claim C10 -/

theorem csvLoop_some (sel : Option (List String)) (hs : List String) (rs : List Record) :
    csvLoop sel rs (some hs)
      = { rows := if hs.isEmpty then []
            else (rs.filter (fun x => !x.isEmpty)).map (fun x => hs.map (csvCell x)),
          count := rs.length } := by
  induction rs with
  | nil => simp [csvLoop]
  | cons r rest ih =>
    simp only [csvLoop]
    by_cases hre : r.isEmpty = true
    · rw [if_pos hre, ih]
      by_cases hh : hs.isEmpty = true
      · simp [hh, List.filter_cons, hre]
      · simp [hh, List.filter_cons, hre]
    · rw [if_neg hre, ih]
      by_cases hh : hs.isEmpty = true
      · simp [hh, List.filter_cons, hre]
      · simp [hh, List.filter_cons, hre]

theorem csvLoop_skip_empty (sel : Option (List String)) (pre rs : List Record)
    (hpre : ∀ e ∈ pre, e = ([] : Record)) :
    csvLoop sel (pre ++ rs) none
      = { rows := (csvLoop sel rs none).rows,
          count := pre.length + (csvLoop sel rs none).count } := by
  induction pre with
  | nil => simp
  | cons e pre ih =>
    have he : e = [] := hpre e (List.mem_cons_self e pre)
    subst he
    simp only [List.cons_append, csvLoop, List.isEmpty_nil, if_pos]
    rw [List.append_eq, ih (fun x hx => hpre x (List.mem_cons_of_mem _ hx))]
    simp only [CsvOut.mk.injEq, true_and, List.length_cons]
    omega

/-- C10: with no selection, the row encoder takes the keys of the first
non-empty record as the header; every row emitted after the header has
exactly one cell per header field, computed as str(record.get(h, '')):
a present value v is emitted as str(v), a missing field as the empty
string, and a field present with value None as the string None; empty
records are counted but produce no row. -/
theorem c10_csv_rows (input : List Record) (r : Record) (pre post : List Record)
    (hsplit : input = pre ++ r :: post)
    (hpre : ∀ e ∈ pre, e = ([] : Record))
    (hr : r ≠ []) :
    (writeInputDataCsv input none).count = input.length
    ∧ (writeInputDataCsv input none).rows
        = recordKeys r
            :: ((input.filter (fun x => !x.isEmpty)).map
                (fun x => (recordKeys r).map (csvCell x)))
    ∧ (∀ row ∈ ((writeInputDataCsv input none).rows).tail,
        row.length = (recordKeys r).length)
    ∧ (∀ x : Record, ∀ hname : String, ∀ v : PyValue,
        (x.lookup hname = some v → csvCell x hname = pyStr v)
        ∧ (x.lookup hname = some PyValue.nullv → csvCell x hname = "None")
        ∧ (x.lookup hname = none → csvCell x hname = "")) := by
  subst hsplit
  have hre : r.isEmpty = false := by
    cases r with
    | nil => exact absurd rfl hr
    | cons a l => rfl
  have hks : (recordKeys r).isEmpty = false := by
    cases r with
    | nil => exact absurd rfl hr
    | cons a l => rfl
  have hfilpre : pre.filter (fun x => !x.isEmpty) = [] := by
    rw [List.filter_eq_nil_iff]
    intro e he
    rw [hpre e he]
    simp
  have hstep : csvLoop none (r :: post) none
      = { rows := recordKeys r
            :: (recordKeys r).map (csvCell r)
            :: ((post.filter (fun x => !x.isEmpty)).map
                (fun x => (recordKeys r).map (csvCell x))),
          count := post.length + 1 } := by
    simp only [csvLoop, hre, Bool.false_eq_true, if_false, csvLoop_some, hks]
  have hmain : writeInputDataCsv (pre ++ r :: post) none
      = { rows := recordKeys r
            :: (recordKeys r).map (csvCell r)
            :: ((post.filter (fun x => !x.isEmpty)).map
                (fun x => (recordKeys r).map (csvCell x))),
          count := pre.length + (post.length + 1) } := by
    rw [writeInputDataCsv, csvLoop_skip_empty none pre (r :: post) hpre, hstep]
  refine ⟨?_, ?_, ?_, ?_⟩
  · rw [hmain]
    simp only [List.length_append, List.length_cons]
  · rw [hmain]
    rw [List.filter_append, hfilpre, List.nil_append, List.filter_cons]
    simp [hre]
  · intro row hrow
    rw [hmain] at hrow
    simp only [List.tail_cons] at hrow
    rcases List.mem_cons.mp hrow with hrow | hrow
    · rw [hrow, List.length_map]
    · rcases List.mem_map.mp hrow with ⟨x, _, hx⟩
      rw [← hx, List.length_map]
  · intro x hname v
    refine ⟨?_, ?_, ?_⟩
    · intro hv
      simp [csvCell, hv]
    · intro hv
      simp [csvCell, hv, pyStr]
    · intro hv
      simp [csvCell, hv]

/-- Witness for C10: a None value prints as None, a missing field as the
empty string, and an empty record yields no row while still being
counted. -/
theorem c10_csv_rows_witness :
    (writeInputDataCsv
        [[], [("a", PyValue.nullv), ("b", PyValue.intv 7)], [("a", PyValue.strv "x")]]
        none).rows
      = [["a", "b"], ["None", "7"], ["x", ""]] :=
  ((c10_csv_rows
      [[], [("a", PyValue.nullv), ("b", PyValue.intv 7)], [("a", PyValue.strv "x")]]
      [("a", PyValue.nullv), ("b", PyValue.intv 7)]
      [[]] [[("a", PyValue.strv "x")]]
      rfl (by decide) (by decide)).2.1).trans (by decide)

/-! ### Claim C1: column selection -/

/-- C1 counterexample: with input records carrying only field a and the
selection list [b], the intersection of the selection with the schema is
empty, yet the table written by the columnar encoder still has column a —
a field not in the selection list appears in the output, so the claimed
exact-intersection property fails. -/
theorem c1_selection_counterexample :
    tableColumnNames (writeInputDataArrow [[("a", PyValue.intv 1)]] (some ["b"])) = ["a"]
    ∧ "a" ∉ (["b"] : List String) := by
  constructor
  · rfl
  · decide

theorem tableSelect_columnNames (t : ArrowTable) (cols : List String)
    (h : ∀ c ∈ cols, c ∈ tableColumnNames t) :
    tableColumnNames (tableSelect t cols) = cols := by
  induction cols with
  | nil => rfl
  | cons c cs ih =>
    have hc : c ∈ tableColumnNames t := h c (List.mem_cons_self _ _)
    obtain ⟨f, hf, hfc⟩ : ∃ f, t.schema.find? (fun g => g.name = c) = some f ∧ f.name = c := by
      rcases List.mem_map.mp hc with ⟨g, hg, hgc⟩
      have hex : (t.schema.find? (fun g2 => g2.name = c)).isSome := by
        rw [List.find?_isSome]
        exact ⟨g, hg, by simp [hgc]⟩
      obtain ⟨x, hx⟩ := Option.isSome_iff_exists.mp hex
      refine ⟨x, hx, ?_⟩
      have := List.find?_some hx
      simpa using this
    have htail := ih (fun c2 hc2 => h c2 (List.mem_cons_of_mem _ hc2))
    simp only [tableColumnNames, tableSelect, List.filterMap_cons, hf] at htail ⊢
    simp [hfc, htail]

/-- C1 (amended): when a selection list is given and at least one selected
name exists among the table's columns, the written table's columns are
exactly the selection list filtered to the schema's fields (the
intersection, in selection order) — fields not in the list never appear
and nonexistent selected names are silently dropped, not an error; when no
selected name exists in the data, the selection is ignored and the table
is written with all its columns.  The row encoder's header is the
selection list filtered to the keys of the first non-empty record. -/
theorem c1_column_selection (input : List Record) (sel : List String)
    (r : Record) (rest : List Record) (hsel : sel ≠ []) :
    ((sel.filter (fun c => (tableColumnNames (convertToArrowTable input)).contains c)) ≠ [] →
        tableColumnNames (writeInputDataArrow input (some sel))
          = sel.filter (fun c => (tableColumnNames (convertToArrowTable input)).contains c)
        ∧ (∀ c, c ∈ tableColumnNames (writeInputDataArrow input (some sel))
            ↔ c ∈ sel ∧ c ∈ tableColumnNames (convertToArrowTable input)))
    ∧ ((sel.filter (fun c => (tableColumnNames (convertToArrowTable input)).contains c)) = [] →
        writeInputDataArrow input (some sel) = convertToArrowTable input)
    ∧ (r ≠ [] →
        (writeInputDataCsv (r :: rest) (some sel)).rows.head?
          = some (sel.filter (fun c => (r.lookup c).isSome))) := by
  have hselE : sel.isEmpty = false := by
    cases sel with
    | nil => exact absurd rfl hsel
    | cons a l => rfl
  refine ⟨?_, ?_, ?_⟩
  · intro havail
    have havailE : (sel.filter
        (fun c => (tableColumnNames (convertToArrowTable input)).contains c)).isEmpty = false := by
      cases hh : sel.filter
          (fun c => (tableColumnNames (convertToArrowTable input)).contains c) with
      | nil => exact absurd hh havail
      | cons a l => rfl
    have hw : writeInputDataArrow input (some sel)
        = tableSelect (convertToArrowTable input)
            (sel.filter (fun c => (tableColumnNames (convertToArrowTable input)).contains c)) := by
      simp only [writeInputDataArrow, hselE, Bool.false_eq_true, if_false, havailE]
    have hnames : tableColumnNames (writeInputDataArrow input (some sel))
        = sel.filter (fun c => (tableColumnNames (convertToArrowTable input)).contains c) := by
      rw [hw]
      apply tableSelect_columnNames
      intro c hcmem
      have := (List.mem_filter.mp hcmem).2
      exact List.mem_of_elem_eq_true this
    refine ⟨hnames, ?_⟩
    intro c
    rw [hnames, List.mem_filter]
    constructor
    · intro hcf
      exact ⟨hcf.1, List.mem_of_elem_eq_true hcf.2⟩
    · intro hcf
      exact ⟨hcf.1, List.elem_eq_true_of_mem hcf.2⟩
  · intro havail
    simp only [writeInputDataArrow, hselE, Bool.false_eq_true, if_false, havail,
      List.isEmpty_nil, if_true]
  · intro hrne
    have hre : r.isEmpty = false := by
      cases r with
      | nil => exact absurd rfl hrne
      | cons a l => rfl
    simp only [writeInputDataCsv, hselE, Bool.false_eq_true, if_false, csvLoop, hre]
    by_cases hh : (sel.filter (fun c => (r.lookup c).isSome)).isEmpty = true
    · simp [hh]
    · simp only [hh, Bool.false_eq_true, if_false]
      rfl

/-- Witness for C1 at a concrete selection: existing fields are kept in
selection order, a nonexistent selected field is silently dropped. -/
theorem c1_column_selection_witness :
    tableColumnNames (writeInputDataArrow
        [[("id", PyValue.intv 1), ("name", PyValue.strv "a"), ("age", PyValue.intv 2)]]
        (some ["id", "name", "zz"]))
      = ["id", "name"] :=
  (((c1_column_selection
      [[("id", PyValue.intv 1), ("name", PyValue.strv "a"), ("age", PyValue.intv 2)]]
      ["id", "name", "zz"] [] [] (by decide)).1 (by decide)).1).trans (by decide)

end Sling
